import Mathlib

/-!
Verification development for the core of the awkward-array sketch
(`awkward/jagged.py`, `awkward/persist.py`, `awkward/arrow.py`).

Python / numpy values are shallowly embedded:
* numeric numpy 1-d arrays become `List Int`;
* Python exceptions become the `PyErr` inductive (constructors note the
  corresponding Python exception and message);
* fallible operations return `Except PyErr _`; mutating operations return
  the final buffer paired with `Option PyErr`, so that partial writes made
  before an exception are observable.
-/

/-! ### The embedded data model and operations -/

/-- Python exceptions raised (or specified) by the modelled code.  Each
constructor corresponds to one exception site / message family in the source. -/
inductive PyErr where
  /-- `TypeError`, e.g. numpy's "only integer scalar arrays can be converted
  to a scalar index" when a non-scalar array is passed as an axis. -/
  | typeError
  /-- numpy `AxisError`: axis out of range for a 1-d operand. -/
  | axisError
  /-- `IndexError`: index out of bounds / field lookup on a non-record array. -/
  | indexError
  /-- `KeyError`: missing key on a dict subscript. -/
  | keyError
  /-- `NameError` on the undefined local `writeable` in the string-selector
  branches of `__setitem__`; unreached on this model's flat numeric content,
  because Python evaluates `self._content[where]` (an `IndexError` there)
  before the keyword value `writeable`. -/
  | nameError
  /-- `UnboundLocalError`: `deserialize` executes `schema = json.loads(schema)`,
  reading the local `schema` before it is assigned. -/
  | unboundLocalError
  /-- `NotImplementedError`. -/
  | notImplemented
  /-- `ValueError("assignment destination is read-only")`. -/
  | readOnly
  /-- `ValueError("cannot copy ... with length {0} to ... with dimension {1}")`
  and `ValueError("starts must be have as many or fewer elements as stops")`. -/
  | lengthMismatch
  /-- `ValueError("starts and stops are not compatible with a single offsets array")`. -/
  | offsetsIncompatible
  /-- numpy shape-mismatch when assigning a sequence into a slice of a
  different length. -/
  | broadcastError
  /-- The forbidden-constructor error named by the specification for
  deserialization outside the whitelist; no site in the source raises it. -/
  | forbiddenConstructor
deriving DecidableEq, Repr

/-- Normalize one slice bound the way Python does: negative values count from
the end (clamped at 0), non-negative values are clamped at the length. -/
def sliceBound (len : Nat) (i : Int) : Nat :=
  if i < 0 then (max (i + len) 0).toNat else min i.toNat len

/-- `xs[a:b]` for Python ints `a`, `b` (step 1). -/
def pySlice (xs : List α) (a b : Int) : List α :=
  (xs.take (sliceBound xs.length b)).drop (sliceBound xs.length a)

/-- `xs[a:b]` with optional bounds (`xs[:]`, `xs[a:]`, `xs[:b]`). -/
def pySliceO (xs : List α) (a b : Option Int) : List α :=
  (xs.take (match b with | none => xs.length | some i => sliceBound xs.length i)).drop
    (match a with | none => 0 | some i => sliceBound xs.length i)

/-- numpy integer indexing `xs[i]` on a 1-d array: negative indices wrap once,
out-of-range indices raise `IndexError`. -/
def npGetInt (xs : List Int) (i : Int) : Except PyErr Int :=
  if 0 ≤ i ∧ i < xs.length then .ok (xs.getD i.toNat 0)
  else if -(xs.length : Int) ≤ i ∧ i < 0 then .ok (xs.getD (i + xs.length).toNat 0)
  else .error .indexError

/-- numpy integer-array (fancy) indexing `xs[idxs]` on a 1-d array: each
index is looked up as a scalar index; the first failure aborts. -/
def npGather (xs : List Int) : List Int → Except PyErr (List Int)
  | [] => .ok []
  | j :: rest => do
      let v ← npGetInt xs j
      let vs ← npGather xs rest
      .ok (v :: vs)

/-- Overwrite `xs` starting at position `a` with the elements of `vals`
(the caller guarantees `a + vals.length ≤ xs.length`; the definition is total
and simply splices). -/
def writeRange (xs : List α) (a : Nat) (vals : List α) : List α :=
  xs.take a ++ vals ++ xs.drop (a + vals.length)

/-- numpy `xs[s:e] = v` with a scalar right-hand side: fill the whole
(normalized) slice with `v`.  Never raises. -/
def writeSliceScalar (xs : List Int) (s e : Int) (v : Int) : List Int :=
  let a := sliceBound xs.length s
  let b := max (sliceBound xs.length e) a
  writeRange xs a (List.replicate (b - a) v)

/-- numpy `xs[s:e] = vals` with an array right-hand side: the lengths must
match (a length-1 right-hand side broadcasts); otherwise numpy raises a
shape-mismatch `ValueError`. -/
def writeSliceVals (xs : List Int) (s e : Int) (vals : List Int) : List Int × Option PyErr :=
  let a := sliceBound xs.length s
  let b := max (sliceBound xs.length e) a
  if vals.length = b - a then (writeRange xs a vals, none)
  else if vals.length = 1 then (writeRange xs a (List.replicate (b - a) (vals.getD 0 0)), none)
  else (xs, some .broadcastError)

/-- One pending slice assignment: a scalar fill or an element-wise copy. -/
inductive WritePayload where
  | scalar (v : Int)
  | vals (vs : List Int)
deriving DecidableEq, Repr

/-- Run a sequence of slice assignments left to right, stopping (like Python)
at the first raised exception and returning the buffer as mutated so far. -/
def writeLoop (xs : List Int) : List ((Int × Int) × WritePayload) → List Int × Option PyErr
  | [] => (xs, none)
  | ((s, e), .scalar v) :: rest => writeLoop (writeSliceScalar xs s e v) rest
  | ((s, e), .vals vs) :: rest =>
      match writeSliceVals xs s e vs with
      | (ys, none) => writeLoop ys rest
      | (ys, some err) => (ys, some err)

/-- `JaggedArray(starts, stops, content, writeable)`: parallel start/stop
index arrays over a flat numeric content buffer. -/
structure JaggedArray where
  starts : List Int
  stops : List Int
  content : List Int
  writeable : Bool
deriving DecidableEq, Repr

/-- `counts = stops - starts` (element-wise over the zipped pair). -/
def JaggedArray.counts (a : JaggedArray) : List Int :=
  (a.starts.zip a.stops).map (fun p => p.2 - p.1)

/-- `_check_startsstops`: in this model arrays are always 1-dimensional with
integer dtype, so the only condition that can fail is
`len(starts) <= len(stops)`. -/
def checkStartsStops (a : JaggedArray) : Except PyErr Unit :=
  if a.starts.length ≤ a.stops.length then .ok () else .error .lengthMismatch

/-- A selector (`where`) for `__getitem__` / `__setitem__`: integer, slice,
integer array, or field-name string. -/
inductive JSel where
  | int (i : Int)
  | slice (lo hi : Option Int)
  | arr (idxs : List Int)
  | field (name : String)
deriving DecidableEq, Repr

/-- Result of `JaggedArray.__getitem__`: a flat content view (integer
selector) or a new jagged node. -/
inductive GetRes where
  | flat (xs : List Int)
  | jag (a : JaggedArray)
deriving DecidableEq, Repr

/-- `JaggedArray.__getitem__`.  The string branch constructs
`JaggedArray(starts, stops, content[name], writeable)`; on the flat numeric
content of this model `content[name]` raises `IndexError` (fields only exist
on record dtypes). -/
def getitem (a : JaggedArray) (w : JSel) : Except PyErr GetRes :=
  match w with
  | .field _ => .error .indexError
  | .int i => do
      checkStartsStops a
      let s ← npGetInt a.starts i
      let e ← npGetInt a.stops i
      .ok (.flat (pySlice a.content s e))
  | .slice lo hi => do
      checkStartsStops a
      .ok (.jag ⟨pySliceO a.starts lo hi, pySliceO a.stops lo hi, a.content, a.writeable⟩)
  | .arr idxs => do
      checkStartsStops a
      let s ← npGather a.starts idxs
      let e ← npGather a.stops idxs
      .ok (.jag ⟨s, e, a.content, a.writeable⟩)

/-- Sum of `stops - starts` over the selected rows
(`(stops - starts).sum()` in the source). -/
def sumCounts (rs : List (Int × Int)) : Int :=
  (rs.map (fun p => p.2 - p.1)).sum

/-- The distributing loop of `__setitem__` for a flat sequence right-hand
side: `next += stop - start; content[start:stop] = what[this:next]; this = next`. -/
def distLoop (content : List Int) (xs : List Int) (acc : Int) :
    List (Int × Int) → List Int × Option PyErr
  | [] => (content, none)
  | (s, e) :: rest =>
      match writeSliceVals content s e (pySlice xs acc (acc + (e - s))) with
      | (ys, none) => distLoop ys xs (acc + (e - s)) rest
      | (ys, some err) => (ys, some err)

/-- The possible right-hand sides of `__setitem__`: a jagged array (iterated
as its list of row views), a flat sequence / 1-d array of numbers, or a
scalar. -/
inductive SetRHS where
  | jag (rows : List (List Int))
  | seq (xs : List Int)
  | scalar (v : Int)
deriving DecidableEq, Repr

/-- The non-scalar-selector body of `JaggedArray.__setitem__`, after `starts`
and `stops` have been gathered by the selector.  `izip` truncates at the
shortest argument, as `List.zip` does. -/
def setitemDispatch (content : List Int) (starts stops : List Int) (what : SetRHS) :
    List Int × Option PyErr :=
  match what with
  | .jag rows =>
      if rows.length ≠ starts.length then (content, some .lengthMismatch)
      else writeLoop content ((starts.zip stops).zip (rows.map .vals))
  | .seq xs =>
      if xs.length = 1 then
        writeLoop content ((starts.zip stops).map (fun se => (se, .scalar (xs.getD 0 0))))
      else if (xs.length : Int) ≠ sumCounts (starts.zip stops) then
        (content, some .lengthMismatch)
      else distLoop content xs 0 (starts.zip stops)
  | .scalar v =>
      writeLoop content ((starts.zip stops).map (fun se => (se, .scalar v)))

/-- The scalar-selector body of `JaggedArray.__setitem__`:
`self._content[starts:stops] = what` for scalar `starts`, `stops`.
A jagged right-hand side is not convertible into a numeric slice. -/
def setitemScalarSel (content : List Int) (s e : Int) (what : SetRHS) :
    List Int × Option PyErr :=
  match what with
  | .scalar v => (writeSliceScalar content s e v, none)
  | .seq xs => writeSliceVals content s e xs
  | .jag _ => (content, some .typeError)

/-- `JaggedArray.__setitem__`.  The string branch executes
`JaggedArray(self._starts, self._stops, self._content[where], writeable=writeable)`
before the read-only check; Python evaluates the positional argument
`self._content[where]` first, and on this model's flat numeric content a
string subscript of a numeric ndarray raises `IndexError` (as `getitem`
models the same expression), so the undefined local name `writeable` is
never reached.  The remaining branches check `writeable`, then
`_check_startsstops`, then index and dispatch. -/
def setitem (a : JaggedArray) (w : JSel) (what : SetRHS) : List Int × Option PyErr :=
  match w with
  | .field _ => (a.content, some .indexError)
  | .int i =>
      if ¬ a.writeable then (a.content, some .readOnly) else
      match checkStartsStops a with
      | .error er => (a.content, some er)
      | .ok _ =>
        match npGetInt a.starts i, npGetInt a.stops i with
        | .ok s, .ok e => setitemScalarSel a.content s e what
        | .error er, _ => (a.content, some er)
        | .ok _, .error er => (a.content, some er)
  | .slice lo hi =>
      if ¬ a.writeable then (a.content, some .readOnly) else
      match checkStartsStops a with
      | .error er => (a.content, some er)
      | .ok _ =>
          setitemDispatch a.content (pySliceO a.starts lo hi) (pySliceO a.stops lo hi) what
  | .arr idxs =>
      if ¬ a.writeable then (a.content, some .readOnly) else
      match checkStartsStops a with
      | .error er => (a.content, some er)
      | .ok _ =>
        match npGather a.starts idxs, npGather a.stops idxs with
        | .ok ss, .ok ee => setitemDispatch a.content ss ee what
        | .error er, _ => (a.content, some er)
        | .ok _, .error er => (a.content, some er)

/-- The `offsets` property.  `_offsets_is_aliased` is a pointer-aliasing fast
path: when `starts` and `stops` physically alias a common base as
`base[:-1]` and `base[1:]`, the returned `base` equals
`append(starts, stops[-1])` and `starts[1:] == stops[:-1]` holds, so the
fast path's value coincides with the `array_equal` branch modelled here. -/
def offsets (a : JaggedArray) : Except PyErr (List Int) :=
  if a.starts.drop 1 = a.stops.dropLast then
    match a.stops.getLast? with
    | some x => .ok (a.starts ++ [x])
    | none => .error .indexError
  else .error .offsetsIncompatible

/-- The `parents` property: `out = numpy.empty(len(content))` (uninitialized
memory, supplied here by `uninitF`; the gaps keep unspecified values), then
`out[starts[i]:stops[i]] = i` for each outer index `i` in order. -/
def parents (a : JaggedArray) (uninitF : Nat → Int) : List Int :=
  let out := (List.range a.content.length).map uninitF
  (writeLoop out
    (((a.starts.zip a.stops).enum).map
      (fun p => (p.2, WritePayload.scalar (p.1 : Int))))).1

/-- `JaggedArray.fromcounts`.  `offsets = numpy.empty(len(counts) + 1)` is
uninitialized memory (supplied by `uninitF`); after `offsets[0] = 0`, the
call `numpy.cumsum(counts, offsets[1:])` passes `offsets[1:]` as the second
positional parameter of `numpy.cumsum`, which is `axis`, not `out`: an array
of more than one element does not convert to a scalar index (`TypeError`);
a one-element array converts to its sole (uninitialized) value, which must
then be a valid axis (`0` or `-1`) for the 1-d operand.  In every surviving
case the cumulative sum is discarded and `offsets` is never written. -/
def fromcounts (counts content : List Int) (uninitF : Nat → Int) :
    Except PyErr JaggedArray :=
  let offs := ((List.range (counts.length + 1)).map uninitF).set 0 0
  let axisArg := offs.drop 1
  if axisArg.length ≠ 1 then .error .typeError
  else if axisArg.getD 0 0 ≠ 0 ∧ axisArg.getD 0 0 ≠ -1 then .error .axisError
  else .ok ⟨offs.dropLast, offs.drop 1, content, true⟩

/-- A Python value as it appears in a decoded persistence schema: JSON
scalars, lists, dicts (string keys), and raw blobs. -/
inductive PyVal where
  | str (s : String)
  | int (n : Int)
  | bytes (bs : List Nat)
  | list (xs : List PyVal)
  | dict (es : List (String × PyVal))

/-- Python `hasattr(v, attr)` for the attribute names `unfill` queries
(`"gen"`, `"read"`, `"ref"`): a `dict` exposes its keys through subscripting,
not as attributes, and none of the other modelled value types carries such an
attribute, so the test is identically false. -/
def pyHasattr (v : PyVal) (attr : String) : Bool := false

/-- The `unfill` walker inside `deserialize`.  Its branch guards are
`hasattr(schema, "gen")` / `hasattr(schema, "read")` / `hasattr(schema, "ref")`,
which never hold on a dict, so every schema value is returned unchanged; the
whitelist is consulted nowhere. -/
def unfill (source : String → Option PyVal) (pfx : String) (schema : PyVal) :
    Except PyErr PyVal :=
  match schema with
  | .dict es =>
      if pyHasattr (.dict es) "gen" then
        -- `importlib.import_module(schema[0])` subscripts the dict with the
        -- integer key 0; the schema dict has string keys, hence `KeyError`
        -- (unreachable: the guard is identically false)
        .error .keyError
      else if pyHasattr (.dict es) "read" then
        -- `source[prefix + schema["read"]]` (unreachable likewise)
        .error .keyError
      else if pyHasattr (.dict es) "ref" then
        -- `seen[schema["ref"]]` on the initially empty map (unreachable)
        .error .keyError
      else .ok (.dict es)
  | v => .ok v

/-- The default deserialization whitelist defined at module level. -/
def whitelist : List (List String) :=
  [["numpy", "frombuffer"], ["zlib", "decompress"], ["awkward", "*"], ["awkward.persist", "*"]]

/-- `deserialize(source, prefix="", whitelist=whitelist)`.  Its first
statement is `schema = json.loads(schema)`: `schema` is a local variable
(assigned on that very line) read before assignment, so every call raises
`UnboundLocalError`, whatever `source` and `whitelist` are; the `whitelist`
parameter is not read anywhere in the body. -/
def deserialize (source : String → Option PyVal) (pfx : String)
    (wl : List (List String)) : Except PyErr PyVal :=
  .error .unboundLocalError

/-- A numpy dtype in the shapes the persistence schema uses: a scalar dtype
(held as its canonical `str(dtype)` name), a subarray dtype `(base, shape)`,
or a packed record dtype given by its named fields. -/
inductive PyDtype where
  | simple (name : String)
  | sub (base : PyDtype) (shape : List Nat)
  | record (fields : List (String × PyDtype))

/-- Python values handled by `dtype2json` / `json2dtype.recurse`: strings,
integers, lists and tuples (`numpy.dtype` distinguishes lists from tuples,
so the embedding does too). -/
inductive PyJson where
  | str (s : String)
  | int (n : Int)
  | list (xs : List PyJson)
  | tup (xs : List PyJson)

/-- `isinstance(x, numbers.Integral)`. -/
def isIntJ : PyJson → Bool | .int _ => true | _ => false

/-- `isinstance(x, str)`. -/
def isStrJ : PyJson → Bool | .str _ => true | _ => false

/-- `isinstance(x, (list, tuple))`. -/
def isSeqJ : PyJson → Bool | .list _ => true | .tup _ => true | _ => false

/-- The elements of a list/tuple (iteration in `all(... for x in obj[-1])`). -/
def seqElems : PyJson → List PyJson | .list xs => xs | .tup xs => xs | _ => []

mutual
/-- `dtype2json`: a subarray dtype becomes the pair `(dtype2json(base), shape)`,
a record dtype the list of `(name, dtype2json(field))` pairs, anything else
its `str(dtype)` name. -/
def dtype2json : PyDtype → PyJson
  | .sub dt sh => .tup [dtype2json dt, .tup (sh.map (fun m : Nat => PyJson.int (m : Int)))]
  | .record fs => .list (dtype2jsonF fs)
  | .simple s => .str s
/-- The element-wise recursion of `dtype2json` over a record's fields. -/
def dtype2jsonF : List (String × PyDtype) → List PyJson
  | [] => []
  | (n, d) :: rest => .tup [.str n, dtype2json d] :: dtype2jsonF rest
end

/-- The tuple-vs-list condition of `json2dtype.recurse`:
`len(obj) > 0 and (isinstance(obj[-1], Integral) or isinstance(obj[0], str)
or (isinstance(obj[-1], (list, tuple)) and all Integral in obj[-1]))`. -/
def recurseCond (xs : List PyJson) : Bool :=
  match xs.head?, xs.getLast? with
  | some h, some l => isIntJ l || isStrJ h || (isSeqJ l && (seqElems l).all isIntJ)
  | _, _ => false

mutual
/-- The inner `recurse` of `json2dtype`: a sequence satisfying the condition
becomes a tuple of recursed elements, any other sequence a list of recursed
elements, and every other value is returned unchanged. -/
def recurse : PyJson → PyJson
  | .list xs => if recurseCond xs then .tup (recurseL xs) else .list (recurseL xs)
  | .tup xs => if recurseCond xs then .tup (recurseL xs) else .list (recurseL xs)
  | .str s => .str s
  | .int n => .int n
/-- `recurse` mapped over the elements of a list/tuple. -/
def recurseL : List PyJson → List PyJson
  | [] => []
  | x :: xs => recurse x :: recurseL xs
end

/-- Read a tuple of non-negative integers as a numpy shape. -/
def intsOf : List PyJson → Option (List Nat)
  | [] => some []
  | .int n :: rest => if 0 ≤ n then (intsOf rest).map (fun t => n.toNat :: t) else none
  | _ :: _ => none

mutual
/-- The `numpy.dtype` constructor on the value shapes produced here: a string
names a scalar dtype; a pair `(base, shape)` builds a subarray dtype (an
empty shape collapses to the base, and a subarray base folds its own shape
onto the right); a list of `(name, format)` pairs builds a record dtype.
Other inputs are outside the schema's image and map to `none`. -/
def npDtypeOf : PyJson → Option PyDtype
  | .str s => some (.simple s)
  | .tup [b, .tup sh] =>
      match npDtypeOf b, intsOf sh with
      | some bb, some shape =>
          if shape.isEmpty then some bb
          else
            match bb with
            | .sub b2 sh2 => some (.sub b2 (shape ++ sh2))
            | .simple s => some (.sub (.simple s) shape)
            | .record fs => some (.sub (.record fs) shape)
      | _, _ => none
  | .list ps =>
      match fieldsOf ps with
      | some fs => some (.record fs)
      | none => none
  | _ => none
/-- Parse a list of `(name, format)` pairs as record fields. -/
def fieldsOf : List PyJson → Option (List (String × PyDtype))
  | [] => some []
  | .tup [.str n, j] :: rest =>
      match npDtypeOf j, fieldsOf rest with
      | some d, some fs => some ((n, d) :: fs)
      | _, _ => none
  | _ :: _ => none
end

/-- `json2dtype(obj) = numpy.dtype(recurse(obj))`. -/
def json2dtype (j : PyJson) : Option PyDtype :=
  npDtypeOf (recurse j)

/-- Whether a dtype is a subarray dtype. -/
def isSubD : PyDtype → Bool | .sub _ _ => true | _ => false

mutual
/-- Well-formedness of a dtype value, mirroring what `numpy.dtype` can
actually produce: a subarray has a non-empty shape and a non-subarray base
(numpy normalizes nested subarrays away), and `simple` names are canonical
(`numpy.dtype(str(d)) == d` for scalar dtypes). -/
def wfDtype : PyDtype → Bool
  | .simple _ => true
  | .sub b sh => !(isSubD b) && !(sh.isEmpty) && wfDtype b
  | .record fs => wfFields fs
/-- `wfDtype` over a record's fields. -/
def wfFields : List (String × PyDtype) → Bool
  | [] => true
  | (_, d) :: rest => wfDtype d && wfFields rest
end

/-- The node variants of `toarrow.recurse` modelled here: the numpy leaf
branch and the string-array branch (the other variants' classes live outside
the sketch). -/
inductive AwkData where
  | ndarray (xs : List Int)
  | stringArr (offsets : List Int) (chars : List Nat) (encoding : Option String)

/-- An Arrow value produced by `toarrow`: a primitive array with an optional
null mask. -/
inductive ArrowVal where
  | prim (xs : List Int) (mask : Option (List Bool))
deriving DecidableEq, Repr

/-- The branches of `toarrow.recurse` for the modelled variants: a numpy
leaf becomes `pyarrow.array(data, mask=mask)`; a `StringArray` raises
`NotImplementedError("I don't know how to make an Arrow StringArray")`. -/
def toarrowRecurse : AwkData → Option (List Bool) → Except PyErr ArrowVal
  | .ndarray xs, mask => .ok (.prim xs mask)
  | .stringArr _ _ _, _ => .error .notImplemented

/-- `toarrow(obj) = recurse(obj, None)`. -/
def toarrow (obj : AwkData) : Except PyErr ArrowVal :=
  toarrowRecurse obj none

/-- A logical type: a primitive, or `ArrayType(length, inner)`. -/
inductive TypeModel where
  | base (name : String)
  | arrayType (len : Int) (inner : TypeModel)
deriving DecidableEq, Repr

/-- The data `fromparquet` reads from a parquet file handle: the number of
row groups, each row group's row count, the column names of the derived
type, and each column's logical type from the file's schema. -/
structure ParquetFileModel where
  numRowGroups : Nat
  rowGroupRows : Nat → Int
  columns : List String
  colType : String → TypeModel

/-- `VirtualArray(parquetfile, (i, n), cache, type, persistvirtual)`: the
producer argument pair, the type hint, and the persistvirtual flag. -/
structure VirtualArrayModel where
  generatorArgs : Nat × String
  typeHint : TypeModel
  persistvirtual : Bool
deriving DecidableEq, Repr

/-- A `Table` chunk: ordered named columns. -/
structure TableModel where
  fields : List (String × VirtualArrayModel)
deriving DecidableEq, Repr

/-- `ChunkedArray(chunks, counts)`. -/
structure ChunkedArrayModel where
  chunks : List TableModel
  counts : List Int
deriving DecidableEq, Repr

/-- The row-group loop of `fromparquet`, over the remaining row-group
indices in ascending order: a row group with `num_rows > 0` contributes a
`Table` chunk whose column `n` is
`VirtualArray(parquetfile, (i, n), type=ArrayType(numrows, type[n]))`. -/
def fromparquetAux (pf : ParquetFileModel) (pv : Bool) :
    List Nat → List TableModel × List Int
  | [] => ([], [])
  | i :: rest =>
      let (cs, ns) := fromparquetAux pf pv rest
      if 0 < pf.rowGroupRows i then
        (⟨pf.columns.map (fun n =>
            (n, ⟨(i, n), .arrayType (pf.rowGroupRows i) (pf.colType n), pv⟩))⟩ :: cs,
         pf.rowGroupRows i :: ns)
      else (cs, ns)

/-- `fromparquet`: the chunked node over all row groups. -/
def fromparquet (pf : ParquetFileModel) (pv : Bool) : ChunkedArrayModel :=
  let p := fromparquetAux pf pv (List.range pf.numRowGroups)
  ⟨p.1, p.2⟩

/-- Validity of one pending slice write against a buffer length: the range
lies inside the buffer, and an element-wise payload has exactly the range's
length. -/
def ValidItem (len : Nat) (it : (Int × Int) × WritePayload) : Prop :=
  0 ≤ it.1.1 ∧ it.1.1 ≤ it.1.2 ∧ it.1.2 ≤ len ∧
    (match it.2 with
     | .vals vs => vs.length = (it.1.2 - it.1.1).toNat
     | .scalar _ => True)

/-- Two pending writes touch disjoint ranges. -/
def ItemDisjoint (p q : (Int × Int) × WritePayload) : Prop :=
  p.1.2 ≤ q.1.1 ∨ q.1.2 ≤ p.1.1

/-- The list of values a successful pending write leaves in its range. -/
def payloadList (it : (Int × Int) × WritePayload) : List Int :=
  match it.2 with
  | .scalar v => List.replicate (it.1.2 - it.1.1).toNat v
  | .vals vs => vs

/-- A schema value containing a `gen` node that names a dotted path outside
every whitelist. -/
def genSchema : PyVal :=
  .dict [("gen", .list [.str "os", .str "system"]), ("args", .list [])]

/-- A source store holding a blob at the prefix key (the encoded schema). -/
def exampleSource : String → Option PyVal :=
  fun k => if k = "" then some (.bytes [123, 34, 103, 101, 110, 34]) else none

/-- A read-only jagged array. -/
def roJagged : JaggedArray := ⟨[0], [2], [11, 22, 33], false⟩

/-- A compact two-row jagged array. -/
def compactJagged : JaggedArray := ⟨[0, 2], [2, 4], [10, 20, 30, 40], true⟩

/-- A two-row jagged array with a gap (`stops[0] ≠ starts[1]`). -/
def gapJagged : JaggedArray := ⟨[0, 3], [2, 4], [10, 20, 30, 40], true⟩

/-- A concrete parquet file shape: three row groups of which the middle one
is empty, two columns. -/
def exampleParquet : ParquetFileModel :=
  ⟨3, fun i => if i = 1 then 0 else 2, ["x", "y"], fun _ => .base "float64"⟩

/-- A concrete jagged array for the C3 witness. -/
def exJagged : JaggedArray := ⟨[0, 2], [2, 4], [10, 20, 30, 40], true⟩

/-- The jagged data-model invariant (§3 of the spec):
`0 ≤ starts[i] ≤ stops[i] ≤ len(content)` with equally long starts/stops. -/
def StartsStopsInvariant (a : JaggedArray) : Prop :=
  a.stops.length = a.starts.length ∧
  ∀ i, i < a.starts.length →
    0 ≤ a.starts.getD i 0 ∧ a.starts.getD i 0 ≤ a.stops.getD i 0 ∧
      a.stops.getD i 0 ≤ a.content.length

/-- Pairwise disjointness of the row ranges `[starts[i], stops[i])`. -/
def DisjointRanges (rs : List (Int × Int)) : Prop :=
  rs.Pairwise (fun p q => p.2 ≤ q.1 ∨ q.2 ≤ p.1)

/-- A jagged array whose two rows overlap (both are `content[0:2]`). -/
def overlapJagged : JaggedArray := ⟨[0, 0], [2, 2], [5, 6], true⟩

/-- All ranges lie inside a buffer of length `len`, each with
`0 ≤ start ≤ stop`. -/
def ValidRanges (rs : List (Int × Int)) (len : Nat) : Prop :=
  ∀ p ∈ rs, 0 ≤ p.1 ∧ p.1 ≤ p.2 ∧ p.2 ≤ (len : Int)

/-- The per-row views `content[start:stop]` over a list of ranges. -/
def rowSlices (c : List Int) (rs : List (Int × Int)) : List (List Int) :=
  rs.map (fun p => pySlice c p.1 p.2)

/-- The consecutive segments `what[this:next]` consumed by the distributing
loop of `__setitem__`: segment `k` has the length of range `k`. -/
def chunksBy (xs : List Int) (acc : Int) : List (Int × Int) → List (List Int)
  | [] => []
  | (s, e) :: rest => pySlice xs acc (acc + (e - s)) :: chunksBy xs (acc + (e - s)) rest

/-- A `(name, format)` pair as produced for record fields: a tuple whose
first element is a string. -/
def isPairJ : PyJson → Bool
  | .tup (.str _ :: _) => true
  | _ => false

/-! ### Theorems -/

theorem sliceBound_of_le {len : Nat} {i : Int} (h0 : 0 ≤ i) (h : i ≤ len) :
    sliceBound len i = i.toNat := by
  simp only [sliceBound]
  split
  · omega
  · omega

theorem pySlice_length {xs : List α} {a b : Int} (h0 : 0 ≤ a) (hab : a ≤ b)
    (hb : b ≤ xs.length) : (pySlice xs a b).length = (b - a).toNat := by
  simp only [pySlice, sliceBound_of_le (le_trans h0 hab) hb,
    sliceBound_of_le h0 (le_trans hab hb), List.length_drop, List.length_take]
  omega

theorem getElem?_pySlice {xs : List α} {a b : Int} (h0 : 0 ≤ a) (hab : a ≤ b)
    (hb : b ≤ xs.length) (k : Nat) :
    (pySlice xs a b)[k]? = if k < (b - a).toNat then xs[a.toNat + k]? else none := by
  simp only [pySlice, sliceBound_of_le (le_trans h0 hab) hb,
    sliceBound_of_le h0 (le_trans hab hb), List.getElem?_drop]
  by_cases hk : k < (b - a).toNat
  · rw [if_pos hk, List.getElem?_take_of_lt (by omega)]
  · rw [if_neg hk, List.getElem?_eq_none]
    simp only [List.length_take]
    omega

theorem length_writeRange {xs vals : List α} {a : Nat} (h : a + vals.length ≤ xs.length) :
    (writeRange xs a vals).length = xs.length := by
  simp only [writeRange, List.length_append, List.length_take, List.length_drop]
  omega

theorem getElem?_writeRange_inside {xs vals : List α} {a k : Nat}
    (h : a + vals.length ≤ xs.length) (hk1 : a ≤ k) (hk2 : k < a + vals.length) :
    (writeRange xs a vals)[k]? = vals[k - a]? := by
  have hta : (xs.take a).length = a := by simp only [List.length_take]; omega
  simp only [writeRange, List.append_assoc]
  rw [List.getElem?_append_right (by rw [hta]; omega), hta,
    List.getElem?_append_left (by omega)]

theorem getElem?_writeRange_outside {xs vals : List α} {a k : Nat}
    (h : a + vals.length ≤ xs.length) (hk : k < a ∨ a + vals.length ≤ k) :
    (writeRange xs a vals)[k]? = xs[k]? := by
  have hta : (xs.take a).length = a := by simp only [List.length_take]; omega
  simp only [writeRange, List.append_assoc]
  rcases hk with hk | hk
  · rw [List.getElem?_append_left (by rw [hta]; omega), List.getElem?_take_of_lt hk]
  · rw [List.getElem?_append_right (by rw [hta]; omega), hta,
      List.getElem?_append_right (by omega), List.getElem?_drop]
    congr 1
    omega

theorem pySlice_writeRange {xs vals : List Int} {s e : Int} (h0 : 0 ≤ s) (hse : s ≤ e)
    (he : e ≤ xs.length) (hlen : vals.length = (e - s).toNat) :
    pySlice (writeRange xs s.toNat vals) s e = vals := by
  have hfit : s.toNat + vals.length ≤ xs.length := by omega
  have hwl : (writeRange xs s.toNat vals).length = xs.length := length_writeRange hfit
  have hta : (xs.take s.toNat).length = s.toNat := by simp only [List.length_take]; omega
  simp only [pySlice, hwl, sliceBound_of_le h0 (le_trans hse he),
    sliceBound_of_le (le_trans h0 hse) he]
  rw [List.drop_take]
  simp only [writeRange, List.append_assoc]
  rw [List.drop_left' hta, List.take_left' (by omega)]

theorem payloadList_length {len : Nat} {it : (Int × Int) × WritePayload}
    (hv : ValidItem len it) : (payloadList it).length = (it.1.2 - it.1.1).toNat := by
  obtain ⟨⟨s, e⟩, pl⟩ := it
  cases pl with
  | scalar v => simp [payloadList]
  | vals vs => exact hv.2.2.2

theorem writeSliceVals_of_valid {xs vals : List Int} {s e : Int} (h0 : 0 ≤ s) (hse : s ≤ e)
    (he : e ≤ xs.length) (hlen : vals.length = (e - s).toNat) :
    writeSliceVals xs s e vals = (writeRange xs s.toNat vals, none) := by
  simp only [writeSliceVals, sliceBound_of_le h0 (le_trans hse he),
    sliceBound_of_le (le_trans h0 hse) he]
  rw [if_pos (by omega)]

theorem writeSliceScalar_of_valid {xs : List Int} {s e : Int} {v : Int} (h0 : 0 ≤ s)
    (hse : s ≤ e) (he : e ≤ xs.length) :
    writeSliceScalar xs s e v = writeRange xs s.toNat (List.replicate (e - s).toNat v) := by
  simp only [writeSliceScalar, sliceBound_of_le h0 (le_trans hse he),
    sliceBound_of_le (le_trans h0 hse) he]
  have hm : max e.toNat s.toNat - s.toNat = (e - s).toNat := by omega
  rw [hm]

theorem writeLoop_cons_of_valid {xs : List Int} {it : (Int × Int) × WritePayload}
    {rest : List ((Int × Int) × WritePayload)} (hv : ValidItem xs.length it) :
    writeLoop xs (it :: rest) = writeLoop (writeRange xs it.1.1.toNat (payloadList it)) rest := by
  obtain ⟨⟨s, e⟩, pl⟩ := it
  obtain ⟨h0, hse, he, hpl⟩ := hv
  cases pl with
  | scalar v => rw [writeLoop, writeSliceScalar_of_valid h0 hse he]; rfl
  | vals vs => rw [writeLoop, writeSliceVals_of_valid h0 hse he hpl]; rfl

theorem writeLoop_ok {items : List ((Int × Int) × WritePayload)} :
    ∀ {xs : List Int}, (∀ it ∈ items, ValidItem xs.length it) →
      (writeLoop xs items).2 = none ∧ (writeLoop xs items).1.length = xs.length := by
  induction items with
  | nil => intro xs _; exact ⟨rfl, rfl⟩
  | cons it rest ih =>
      intro xs hv
      have hvit := hv it (List.mem_cons_self it rest)
      rw [writeLoop_cons_of_valid hvit]
      have hfit : it.1.1.toNat + (payloadList it).length ≤ xs.length := by
        rw [payloadList_length hvit]
        obtain ⟨h0, hse, he, -⟩ := hvit
        omega
      have hlen := length_writeRange hfit
      have hvrest : ∀ jt ∈ rest, ValidItem (writeRange xs it.1.1.toNat (payloadList it)).length jt := by
        rw [hlen]
        exact fun jt hj => hv jt (List.mem_cons_of_mem it hj)
      obtain ⟨e1, e2⟩ := ih hvrest
      exact ⟨e1, by rw [e2, hlen]⟩

theorem writeLoop_frame {items : List ((Int × Int) × WritePayload)} :
    ∀ {xs : List Int} {k : Nat}, (∀ it ∈ items, ValidItem xs.length it) →
      (∀ it ∈ items, (k : Int) < it.1.1 ∨ it.1.2 ≤ (k : Int)) →
      (writeLoop xs items).1[k]? = xs[k]? := by
  induction items with
  | nil => intro xs k _ _; rfl
  | cons it rest ih =>
      intro xs k hv hk
      have hvit := hv it (List.mem_cons_self it rest)
      rw [writeLoop_cons_of_valid hvit]
      have hfit : it.1.1.toNat + (payloadList it).length ≤ xs.length := by
        rw [payloadList_length hvit]
        obtain ⟨h0, hse, he, -⟩ := hvit
        omega
      have hlen := length_writeRange hfit
      have hvrest : ∀ jt ∈ rest, ValidItem (writeRange xs it.1.1.toNat (payloadList it)).length jt := by
        rw [hlen]
        exact fun jt hj => hv jt (List.mem_cons_of_mem it hj)
      rw [ih hvrest (fun jt hj => hk jt (List.mem_cons_of_mem it hj))]
      apply getElem?_writeRange_outside hfit
      have hkit := hk it (List.mem_cons_self it rest)
      have hpll := payloadList_length hvit
      obtain ⟨h0, hse, he, -⟩ := hvit
      omega

theorem writeLoop_slices {items : List ((Int × Int) × WritePayload)} :
    ∀ {xs : List Int}, (∀ it ∈ items, ValidItem xs.length it) →
      items.Pairwise ItemDisjoint →
      ∀ i (hi : i < items.length),
        pySlice (writeLoop xs items).1 (items.get ⟨i, hi⟩).1.1 (items.get ⟨i, hi⟩).1.2
          = payloadList (items.get ⟨i, hi⟩) := by
  induction items with
  | nil => intro xs _ _ i hi; simp at hi
  | cons it rest ih =>
      intro xs hv hd i hi
      have hvit := hv it (List.mem_cons_self it rest)
      have hpll := payloadList_length hvit
      have hfit : it.1.1.toNat + (payloadList it).length ≤ xs.length := by
        obtain ⟨h0, hse, he, -⟩ := hvit
        omega
      have hlen := length_writeRange hfit
      rw [writeLoop_cons_of_valid hvit]
      have hvrest : ∀ jt ∈ rest,
          ValidItem (writeRange xs it.1.1.toNat (payloadList it)).length jt := by
        rw [hlen]
        exact fun jt hj => hv jt (List.mem_cons_of_mem it hj)
      cases i with
      | zero =>
          have hget : (it :: rest).get ⟨0, hi⟩ = it := rfl
          rw [hget]
          obtain ⟨h0, hse, he, -⟩ := hvit
          have hrl := (writeLoop_ok hvrest).2
          apply List.ext_getElem?_iff.mpr
          intro k
          rw [getElem?_pySlice h0 hse (by rw [hrl, hlen]; exact he) k]
          by_cases hk : k < (it.1.2 - it.1.1).toNat
          · rw [if_pos hk]
            have hframe :
                (writeLoop (writeRange xs it.1.1.toNat (payloadList it)) rest).1[it.1.1.toNat + k]?
                  = (writeRange xs it.1.1.toNat (payloadList it))[it.1.1.toNat + k]? := by
              apply writeLoop_frame hvrest
              intro jt hj
              have hdj : ItemDisjoint it jt := (List.pairwise_cons.mp hd).1 jt hj
              have hvj := hv jt (List.mem_cons_of_mem it hj)
              obtain ⟨j0, jse, jhe, -⟩ := hvj
              rcases hdj with hdj | hdj
              · left; push_cast; omega
              · right; push_cast; omega
            rw [hframe, getElem?_writeRange_inside hfit (by omega) (by omega)]
            congr 1
            omega
          · rw [if_neg hk]
            symm
            apply List.getElem?_eq_none
            omega
      | succ i =>
          simp only [List.get_cons_succ]
          exact ih hvrest (List.pairwise_cons.mp hd).2 i (by simpa using hi)

/-- C1: the claim states that `deserialize` resolves every `gen` path through
the whitelist and fails with forbidden-constructor on violations, in
particular under the empty whitelist.  The code instead raises
`UnboundLocalError` on its first statement (`schema = json.loads(schema)`),
its result does not depend on the whitelist argument at all, and its
fill-tree walker `unfill` passes a `gen` node through unchanged rather than
rejecting it: no forbidden-constructor failure can ever occur. -/
theorem deserialize_unboundLocal_not_forbidden :
    deserialize exampleSource "" [] = .error .unboundLocalError
    ∧ deserialize exampleSource "" [] ≠ .error .forbiddenConstructor
    ∧ deserialize exampleSource "" [] = deserialize exampleSource "" whitelist
    ∧ unfill exampleSource "" genSchema = .ok genSchema := by
  refine ⟨rfl, by simp [deserialize], rfl, rfl⟩

/-- C2: the claim states that `fromcounts(counts, content)` returns a compact
jagged array whose counts equal `counts`.  The code passes the uninitialized
output buffer `offsets[1:]` as the `axis` parameter of `numpy.cumsum`, so for
the two-row input `counts = [2, 1]` it raises `TypeError` for every state of
the uninitialized memory and never returns an array at all. -/
theorem fromcounts_typeError (uninitF : Nat → Int) :
    fromcounts [2, 1] [5, 6, 7] uninitF = .error .typeError := rfl

/-- Witness: the failing evaluation at one concrete uninitialized buffer. -/
theorem fromcounts_typeError_witness :
    fromcounts [2, 1] [5, 6, 7] (fun _ => 37) = .error .typeError :=
  fromcounts_typeError (fun _ => 37)

/-- C5: the claim states that every assignment on a writeable=false jagged
(or byte-jagged) node fails with the read-only error for every selector,
including a field-name string.  Integer, slice and array selectors do fail
read-only with the content unchanged, but the string-selector branch runs
`JaggedArray(self._starts, self._stops, self._content[where], writeable=writeable)`
before the read-only check ever executes: on flat numeric content the
argument `self._content[where]` raises `IndexError` (and were the content a
record array, the undefined local `writeable` would raise `NameError`
next), so the branch can never reach the read-only `ValueError` (the
byte-jagged `__setitem__` has the identical two branches). -/
theorem setitem_readonly_and_indexError :
    setitem roJagged (.int 0) (.scalar 99) = ([11, 22, 33], some .readOnly)
    ∧ setitem roJagged (.slice none none) (.seq [1, 2]) = ([11, 22, 33], some .readOnly)
    ∧ setitem roJagged (.arr [0]) (.jag [[7, 8]]) = ([11, 22, 33], some .readOnly)
    ∧ setitem roJagged (.field "x") (.scalar 99) = ([11, 22, 33], some .indexError)
    ∧ some PyErr.indexError ≠ some PyErr.readOnly := by
  exact ⟨rfl, rfl, rfl, rfl, by decide⟩

/-- C8: the claim states that `toarrow` on a string array succeeds through
the jagged-of-bytes path with a utf-8 tag.  The string branch of
`toarrow.recurse` raises `NotImplementedError` instead. -/
theorem toarrow_string_notImplemented :
    toarrow (.stringArr [0, 5] [104, 101, 108, 108, 111] (some "utf-8"))
      = .error .notImplemented := rfl

theorem getElem?_dropLast (l : List α) (i : Nat) :
    l.dropLast[i]? = if i < l.length - 1 then l[i]? else none := by
  rw [List.dropLast_eq_take]
  by_cases h : i < l.length - 1
  · rw [if_pos h, List.getElem?_take_of_lt h]
  · rw [if_neg h, List.getElem?_eq_none]
    simp only [List.length_take]
    omega

theorem adjacent_iff {starts stops : List Int} (hlen : stops.length = starts.length) :
    starts.drop 1 = stops.dropLast ↔
      ∀ i, i < starts.length - 1 → stops.getD i 0 = starts.getD (i + 1) 0 := by
  constructor
  · intro h i hi
    have h2 := congrArg (fun l => l[i]?) h
    simp only at h2
    rw [List.getElem?_drop, getElem?_dropLast, if_pos (by omega)] at h2
    rw [List.getD_eq_getElem?_getD, List.getD_eq_getElem?_getD, ← h2]
    congr 2
    omega
  · intro h
    apply List.ext_getElem?_iff.mpr
    intro i
    rw [List.getElem?_drop, getElem?_dropLast, Nat.add_comm 1 i]
    by_cases hi : i < stops.length - 1
    · rw [if_pos hi, List.getElem?_eq_getElem (show i + 1 < starts.length by omega),
        List.getElem?_eq_getElem (show i < stops.length by omega)]
      have hs := h i (by omega)
      rw [List.getD_eq_getElem?_getD, List.getD_eq_getElem?_getD,
        List.getElem?_eq_getElem (show i + 1 < starts.length by omega),
        List.getElem?_eq_getElem (show i < stops.length by omega)] at hs
      simp only [Option.getD_some] at hs
      rw [hs]
    · rw [if_neg hi, List.getElem?_eq_none]
      omega

/-- C6: for a jagged array of length `L ≥ 1` with equally long starts and
stops: under adjacency (`stops[i] = starts[i+1]` for all `i < L-1`) the
`offsets` property returns `starts ++ [stops[L-1]]`, of length `L+1`,
agreeing with `starts` below `L` and ending in `stops[L-1]`; without
adjacency it fails with the incompatibility error. -/
theorem offsets_spec (a : JaggedArray) (hL : 1 ≤ a.starts.length)
    (hlen : a.stops.length = a.starts.length) :
    ((∀ i, i < a.starts.length - 1 → a.stops.getD i 0 = a.starts.getD (i + 1) 0) →
      offsets a = .ok (a.starts ++ [a.stops.getD (a.starts.length - 1) 0])
      ∧ (a.starts ++ [a.stops.getD (a.starts.length - 1) 0]).length = a.starts.length + 1
      ∧ (∀ i, i < a.starts.length →
          (a.starts ++ [a.stops.getD (a.starts.length - 1) 0]).getD i 0 = a.starts.getD i 0)
      ∧ (a.starts ++ [a.stops.getD (a.starts.length - 1) 0]).getD a.starts.length 0
          = a.stops.getD (a.starts.length - 1) 0)
    ∧ ((¬ ∀ i, i < a.starts.length - 1 → a.stops.getD i 0 = a.starts.getD (i + 1) 0) →
      offsets a = .error .offsetsIncompatible) := by
  constructor
  · intro hadj
    have he : a.starts.drop 1 = a.stops.dropLast := (adjacent_iff hlen).mpr hadj
    have hidx : a.stops.length - 1 = a.starts.length - 1 := by omega
    have hlast : a.stops.getLast? = some (a.stops.getD (a.starts.length - 1) 0) := by
      rw [List.getLast?_eq_getElem?, hidx, List.getD_eq_getElem?_getD,
        List.getElem?_eq_getElem (show a.starts.length - 1 < a.stops.length by omega)]
      simp
    refine ⟨?_, ?_, ?_, ?_⟩
    · simp only [offsets, if_pos he, hlast]
    · simp
    · intro i hi
      rw [List.getD_eq_getElem?_getD, List.getElem?_append_left hi,
        ← List.getD_eq_getElem?_getD]
    · rw [List.getD_eq_getElem?_getD, List.getElem?_append_right (le_refl _)]
      simp
  · intro hnadj
    have he : ¬ (a.starts.drop 1 = a.stops.dropLast) :=
      fun h => hnadj ((adjacent_iff hlen).mp h)
    simp only [offsets, if_neg he]

/-- Witness for C6 at concrete inputs, on both sides of the adjacency test. -/
theorem offsets_spec_witness :
    (1 ≤ compactJagged.starts.length
      ∧ compactJagged.stops.length = compactJagged.starts.length
      ∧ offsets compactJagged = .ok [0, 2, 4])
    ∧ offsets gapJagged = .error .offsetsIncompatible := by
  refine ⟨⟨by decide, by decide, ?_⟩, ?_⟩
  · exact ((offsets_spec compactJagged (by decide) (by decide)).1 (by decide)).1
  · exact (offsets_spec gapJagged (by decide) (by decide)).2 (by decide)

theorem fromparquetAux_eq (pf : ParquetFileModel) (pv : Bool) (l : List Nat) :
    fromparquetAux pf pv l
      = ((l.filter (fun i => decide (0 < pf.rowGroupRows i))).map
          (fun i => ⟨pf.columns.map (fun n =>
              (n, ⟨(i, n), .arrayType (pf.rowGroupRows i) (pf.colType n), pv⟩))⟩),
         (l.filter (fun i => decide (0 < pf.rowGroupRows i))).map pf.rowGroupRows) := by
  induction l with
  | nil => rfl
  | cons i rest ih =>
      by_cases h : 0 < pf.rowGroupRows i
      · simp [fromparquetAux, ih, h, List.filter_cons]
      · simp [fromparquetAux, ih, h, List.filter_cons]

/-- C9: `fromparquet` yields a chunked node with one chunk per row group with
a positive row count; the chunk for row group `i` is a table whose column `n`
is a virtual node with producer-argument key `(i, n)`, type hint
`ArrayType(numrows_i, schema_type(n))` (a known length equal to the row
group's row count and the logical type from the file's schema), and the
chunked counts are those row counts. -/
theorem fromparquet_spec (pf : ParquetFileModel) (pv : Bool) :
    (fromparquet pf pv).chunks
      = ((List.range pf.numRowGroups).filter (fun i => decide (0 < pf.rowGroupRows i))).map
          (fun i => ⟨pf.columns.map (fun n =>
              (n, ⟨(i, n), .arrayType (pf.rowGroupRows i) (pf.colType n), pv⟩))⟩)
    ∧ (fromparquet pf pv).counts
      = ((List.range pf.numRowGroups).filter (fun i => decide (0 < pf.rowGroupRows i))).map
          pf.rowGroupRows := by
  simp [fromparquet, fromparquetAux_eq]

/-- Witness: `fromparquet` on the concrete file shape. -/
theorem fromparquet_spec_witness :
    (fromparquet exampleParquet true).chunks
      = ((List.range exampleParquet.numRowGroups).filter
            (fun i => decide (0 < exampleParquet.rowGroupRows i))).map
          (fun i => ⟨exampleParquet.columns.map (fun n =>
              (n, ⟨(i, n), .arrayType (exampleParquet.rowGroupRows i)
                    (exampleParquet.colType n), true⟩))⟩)
    ∧ (fromparquet exampleParquet true).counts
      = ((List.range exampleParquet.numRowGroups).filter
            (fun i => decide (0 < exampleParquet.rowGroupRows i))).map
          exampleParquet.rowGroupRows :=
  fromparquet_spec exampleParquet true

theorem npGetInt_nonneg {xs : List Int} {i : Int} (h0 : 0 ≤ i) (hlt : i < xs.length) :
    npGetInt xs i = .ok (xs.getD i.toNat 0) := by
  simp only [npGetInt]
  rw [if_pos ⟨h0, hlt⟩]

theorem npGetInt_neg {xs : List Int} {i : Int} (hge : -(xs.length : Int) ≤ i) (hlt : i < 0) :
    npGetInt xs i = .ok (xs.getD (i + xs.length).toNat 0) := by
  simp only [npGetInt]
  rw [if_neg (by omega), if_pos ⟨hge, hlt⟩]

theorem npGather_ok {xs : List Int} : ∀ {idxs : List Int},
    (∀ j ∈ idxs, -(xs.length : Int) ≤ j ∧ j < xs.length) →
    npGather xs idxs = .ok (idxs.map (fun j : Int =>
      xs.getD (if j < 0 then (j + xs.length).toNat else j.toNat) 0)) := by
  intro idxs
  induction idxs with
  | nil => intro _; rfl
  | cons j rest ih =>
      intro h
      have hj := h j (List.mem_cons_self j rest)
      have hrest := ih (fun k hk => h k (List.mem_cons_of_mem j hk))
      by_cases hneg : j < 0
      · simp only [npGather, npGetInt_neg hj.1 hneg, hrest, hneg, List.map_cons, if_pos hneg]
        rfl
      · simp only [npGather, npGetInt_nonneg (by omega) hj.2, hrest, hneg, List.map_cons,
          if_neg hneg]
        rfl

theorem counts_getD (a : JaggedArray) {i : Nat} (hi : i < a.starts.length)
    (hi2 : i < a.stops.length) :
    a.counts.getD i 0 = a.stops.getD i 0 - a.starts.getD i 0 := by
  have hz : i < (a.starts.zip a.stops).length := by
    rw [List.length_zip]
    omega
  simp only [JaggedArray.counts]
  rw [List.getD_eq_getElem?_getD, List.getElem?_map, List.getElem?_eq_getElem hz,
    List.getElem_zip, List.getD_eq_getElem?_getD, List.getD_eq_getElem?_getD,
    List.getElem?_eq_getElem hi, List.getElem?_eq_getElem hi2]
  simp

/-- C3: on a jagged array with equally long starts/stops that passes the
starts/stops check, an in-range integer selector returns the content view
`content[starts[i]:stops[i]]` (whose length is `counts[i]` whenever
`0 ≤ starts[i] ≤ stops[i] ≤ len(content)`); a slice selector returns a new
jagged node with sliced starts/stops over the same content; an in-range
integer-array selector returns a new jagged node with gathered (wrapping)
starts/stops over the same content. -/
theorem getitem_spec (a : JaggedArray) (i : Int) (lo hi : Option Int) (idxs : List Int)
    (hlen : a.stops.length = a.starts.length)
    (h0 : 0 ≤ i) (hiL : i < a.starts.length)
    (hidx : ∀ j ∈ idxs, -(a.starts.length : Int) ≤ j ∧ j < a.starts.length) :
    (getitem a (.int i)
        = .ok (.flat (pySlice a.content (a.starts.getD i.toNat 0) (a.stops.getD i.toNat 0))))
    ∧ (0 ≤ a.starts.getD i.toNat 0 → a.starts.getD i.toNat 0 ≤ a.stops.getD i.toNat 0 →
        a.stops.getD i.toNat 0 ≤ a.content.length →
        ((pySlice a.content (a.starts.getD i.toNat 0) (a.stops.getD i.toNat 0)).length : Int)
          = a.counts.getD i.toNat 0)
    ∧ (getitem a (.slice lo hi)
        = .ok (.jag ⟨pySliceO a.starts lo hi, pySliceO a.stops lo hi, a.content, a.writeable⟩))
    ∧ (getitem a (.arr idxs)
        = .ok (.jag ⟨idxs.map (fun j : Int =>
              a.starts.getD (if j < 0 then (j + a.starts.length).toNat else j.toNat) 0),
            idxs.map (fun j : Int =>
              a.stops.getD (if j < 0 then (j + a.stops.length).toNat else j.toNat) 0),
            a.content, a.writeable⟩)) := by
  have hchk : a.starts.length ≤ a.stops.length := by omega
  refine ⟨?_, ?_, ?_, ?_⟩
  · simp only [getitem, checkStartsStops, if_pos hchk, npGetInt_nonneg h0 hiL,
      npGetInt_nonneg h0 (show i < (a.stops.length : Int) by omega)]
    rfl
  · intro hs1 hs2 hs3
    rw [pySlice_length hs1 hs2 hs3, counts_getD a (by omega) (by omega)]
    omega
  · simp only [getitem, checkStartsStops, if_pos hchk]
    rfl
  · have hidx2 : ∀ j ∈ idxs, -(a.stops.length : Int) ≤ j ∧ j < a.stops.length := by
      intro j hj
      have := hidx j hj
      omega
    simp only [getitem, checkStartsStops, if_pos hchk, npGather_ok hidx,
      npGather_ok hidx2]
    rfl

/-- Witness for C3 at concrete inputs: integer, slice and array selectors. -/
theorem getitem_spec_witness :
    (exJagged.stops.length = exJagged.starts.length ∧ (0 : Int) ≤ 1
      ∧ (1 : Int) < exJagged.starts.length
      ∧ (∀ j ∈ [(0 : Int), -1], -(exJagged.starts.length : Int) ≤ j
          ∧ j < exJagged.starts.length))
    ∧ getitem exJagged (.int 1) = .ok (.flat [30, 40])
    ∧ getitem exJagged (.slice (some 1) none) = .ok (.jag ⟨[2], [4], [10, 20, 30, 40], true⟩)
    ∧ getitem exJagged (.arr [0, -1]) = .ok (.jag ⟨[0, 2], [2, 4], [10, 20, 30, 40], true⟩) := by
  have h := getitem_spec exJagged 1 (some 1) none [0, -1] (by decide) (by decide)
    (by decide) (by decide)
  exact ⟨⟨by decide, by decide, by decide, by decide⟩,
    h.1.trans rfl, h.2.2.1.trans rfl, h.2.2.2.trans rfl⟩

theorem getD_of_lt (l : List Int) {i : Nat} (h : i < l.length) : l.getD i 0 = l[i] := by
  rw [List.getD_eq_getElem?_getD, List.getElem?_eq_getElem h]
  rfl

/-- C7 counterexample: `overlapJagged` satisfies the starts/stops invariant
and row 0 has a non-empty range, yet `parents[starts[0]:stops[0]]` is not
the constant row index 0 — the later overlapping row overwrote it. -/
theorem parents_overlap_counterexample :
    StartsStopsInvariant overlapJagged
    ∧ overlapJagged.starts.getD 0 0 < overlapJagged.stops.getD 0 0
    ∧ pySlice (parents overlapJagged (fun _ => 0)) (overlapJagged.starts.getD 0 0)
        (overlapJagged.stops.getD 0 0)
      ≠ List.replicate
          (overlapJagged.stops.getD 0 0 - overlapJagged.starts.getD 0 0).toNat
          ((0 : Nat) : Int) := by
  refine ⟨⟨by decide, by decide⟩, by decide, by decide⟩

/-- C7 amended: under the starts/stops invariant *and pairwise-disjoint row
ranges*, `parents` has length `len(content)` and reads back the owning row
index on every row's range (elements in gaps keep unspecified values, for
every state `uninitF` of the uninitialized buffer). -/
theorem parents_spec (a : JaggedArray) (uninitF : Nat → Int)
    (hinv : StartsStopsInvariant a)
    (hdisj : DisjointRanges (a.starts.zip a.stops)) :
    (parents a uninitF).length = a.content.length
    ∧ ∀ i, i < a.starts.length →
        pySlice (parents a uninitF) (a.starts.getD i 0) (a.stops.getD i 0)
          = List.replicate (a.stops.getD i 0 - a.starts.getD i 0).toNat (i : Int) := by
  obtain ⟨hlen, hb⟩ := hinv
  have hz : (a.starts.zip a.stops).length = a.starts.length := by
    rw [List.length_zip]
    omega
  have houtlen : ((List.range a.content.length).map uninitF).length = a.content.length := by
    simp
  have hitlen : (((a.starts.zip a.stops).enum).map
      (fun p => (p.2, WritePayload.scalar (p.1 : Int)))).length = a.starts.length := by
    simp [hz]
  have hget : ∀ k (hk : k < a.starts.length),
      (((a.starts.zip a.stops).enum).map
        (fun p => (p.2, WritePayload.scalar (p.1 : Int)))).get ⟨k, by rw [hitlen]; exact hk⟩
      = ((a.starts.getD k 0, a.stops.getD k 0), WritePayload.scalar (k : Int)) := by
    intro k hk
    rw [List.get_eq_getElem, List.getElem_map, List.getElem_enum, List.getElem_zip,
      getD_of_lt _ hk, getD_of_lt _ (show k < a.stops.length by omega)]
  have hv : ∀ it ∈ ((a.starts.zip a.stops).enum).map
      (fun p => (p.2, WritePayload.scalar (p.1 : Int))),
      ValidItem ((List.range a.content.length).map uninitF).length it := by
    intro it hit
    obtain ⟨⟨k, hk2⟩, hke⟩ := List.mem_iff_get.mp hit
    have hk : k < a.starts.length := by rw [hitlen] at hk2; exact hk2
    rw [hget k hk] at hke
    obtain ⟨hb1, hb2, hb3⟩ := hb k hk
    rw [← hke]
    exact ⟨hb1, hb2, by rw [houtlen]; exact hb3, trivial⟩
  have hpw : (((a.starts.zip a.stops).enum).map
      (fun p => (p.2, WritePayload.scalar (p.1 : Int)))).Pairwise ItemDisjoint := by
    rw [List.pairwise_map]
    have h2 : (((a.starts.zip a.stops).enum).map Prod.snd).Pairwise
        (fun p q => p.2 ≤ q.1 ∨ q.2 ≤ p.1) := by
      rw [List.enum_map_snd]
      exact hdisj
    rw [List.pairwise_map] at h2
    exact h2
  constructor
  · rw [parents, (writeLoop_ok hv).2, houtlen]
  · intro i hi
    have hs := writeLoop_slices hv hpw i (by rw [hitlen]; exact hi)
    rw [hget i hi] at hs
    rw [parents]
    exact hs

/-- Witness for C7 (amended) on a disjoint two-row jagged array. -/
theorem parents_spec_witness :
    (StartsStopsInvariant exJagged ∧ DisjointRanges (exJagged.starts.zip exJagged.stops))
    ∧ (parents exJagged (fun _ => 99)).length = exJagged.content.length
    ∧ ∀ i, i < exJagged.starts.length →
        pySlice (parents exJagged (fun _ => 99)) (exJagged.starts.getD i 0)
          (exJagged.stops.getD i 0)
        = List.replicate (exJagged.stops.getD i 0 - exJagged.starts.getD i 0).toNat
            (i : Int) := by
  have hinv : StartsStopsInvariant exJagged := ⟨by decide, by decide⟩
  have hd : DisjointRanges (exJagged.starts.zip exJagged.stops) := by
    show List.Pairwise _ _
    decide
  have h := parents_spec exJagged (fun _ => 99) hinv hd
  exact ⟨⟨hinv, hd⟩, h.1, h.2⟩

theorem sumCounts_cons (p : Int × Int) (rs : List (Int × Int)) :
    sumCounts (p :: rs) = (p.2 - p.1) + sumCounts rs := by
  simp [sumCounts]

theorem sumCounts_nonneg {rs : List (Int × Int)} (h : ∀ p ∈ rs, p.1 ≤ p.2) :
    0 ≤ sumCounts rs := by
  induction rs with
  | nil => simp [sumCounts]
  | cons p rest ih =>
      rw [sumCounts_cons]
      have h1 := h p (List.mem_cons_self p rest)
      have h2 := ih (fun q hq => h q (List.mem_cons_of_mem p hq))
      omega

theorem chunksBy_length (xs : List Int) : ∀ (rs : List (Int × Int)) (acc : Int),
    (chunksBy xs acc rs).length = rs.length := by
  intro rs
  induction rs with
  | nil => intro acc; rfl
  | cons p rest ih =>
      intro acc
      obtain ⟨s, e⟩ := p
      simp [chunksBy, ih]

theorem chunksBy_getD_length (xs : List Int) : ∀ (rs : List (Int × Int)) (acc : Int),
    0 ≤ acc → (∀ p ∈ rs, p.1 ≤ p.2) → acc + sumCounts rs ≤ xs.length →
    ∀ k, k < rs.length →
      ((chunksBy xs acc rs).getD k []).length
        = ((rs.getD k (0, 0)).2 - (rs.getD k (0, 0)).1).toNat := by
  intro rs
  induction rs with
  | nil => intro acc _ _ _ k hk; simp at hk
  | cons p rest ih =>
      intro acc hacc hle htot k hk
      obtain ⟨s, e⟩ := p
      have hse : s ≤ e := hle (s, e) (List.mem_cons_self _ _)
      have hrest0 : 0 ≤ sumCounts rest :=
        sumCounts_nonneg (fun q hq => hle q (List.mem_cons_of_mem _ hq))
      rw [sumCounts_cons] at htot
      cases k with
      | zero =>
          simp only [chunksBy, List.getD_cons_zero]
          rw [pySlice_length hacc (by omega) (by omega)]
          omega
      | succ k =>
          simp only [chunksBy, List.getD_cons_succ]
          exact ih (acc + (e - s)) (by omega)
            (fun q hq => hle q (List.mem_cons_of_mem _ hq)) (by omega) k
            (by simpa using hk)

theorem distLoop_eq_writeLoop (xs : List Int) : ∀ (rs : List (Int × Int))
    (content : List Int) (acc : Int),
    distLoop content xs acc rs
      = writeLoop content
          (List.zipWith (fun r ch => (r, WritePayload.vals ch)) rs (chunksBy xs acc rs)) := by
  intro rs
  induction rs with
  | nil => intro content acc; rfl
  | cons p rest ih =>
      intro content acc
      obtain ⟨s, e⟩ := p
      rcases hw : writeSliceVals content s e (pySlice xs acc (acc + (e - s))) with ⟨ys, err⟩
      cases err with
      | none => simp only [distLoop, chunksBy, List.zipWith_cons_cons, writeLoop, hw, ih]
      | some er => simp only [distLoop, chunksBy, List.zipWith_cons_cons, writeLoop, hw]

theorem map_fst_zipWith_pair (rs : List (Int × Int)) :
    ∀ (chs : List (List Int)), rs.length ≤ chs.length →
    (List.zipWith (fun r ch => (r, WritePayload.vals ch)) rs chs).map Prod.fst = rs := by
  induction rs with
  | nil => intro chs _; rfl
  | cons r rest ih =>
      intro chs hlen
      cases chs with
      | nil => simp at hlen
      | cons c cr => simp [ih cr (by simpa using hlen)]

theorem pySliceO_none_none (xs : List α) : pySliceO xs none none = xs := by
  simp [pySliceO]

theorem pairwise_of_map_fst {α β : Type} {R : α → α → Prop} {l : List (α × β)}
    (h : (l.map Prod.fst).Pairwise R) : l.Pairwise (fun p q => R p.1 q.1) := by
  induction l with
  | nil => exact List.Pairwise.nil
  | cons x xs ih =>
      rw [List.map_cons, List.pairwise_cons] at h
      exact List.Pairwise.cons (fun q hq => h.1 q.1 (List.mem_map_of_mem Prod.fst hq)) (ih h.2)

theorem setitem_slice_all (a : JaggedArray) (hw : a.writeable = true)
    (hchk : a.starts.length ≤ a.stops.length) (what : SetRHS) :
    setitem a (.slice none none) what = setitemDispatch a.content a.starts a.stops what := by
  simp only [setitem, hw, checkStartsStops, if_pos hchk, pySliceO_none_none]
  simp

/-- C4: on the body of `__setitem__` after a non-scalar selector has gathered
`starts`/`stops` (with the in-bounds invariant and pairwise-disjoint rows):
a jagged right-hand side whose length differs from the number of selected
rows fails with the length-mismatch error leaving the content unchanged, and
otherwise copies per-sublist; a sequence of length 1 broadcasts its single
element over every selected sublist; a sequence whose length equals the
total of the selected counts distributes element-wise in order; a sequence
of any other length fails with the length-mismatch error before any write,
leaving the content unchanged.  The last conjunct ties the dispatch to
`__setitem__` with the all-rows slice selector. -/
theorem setitemDispatch_spec
    (content starts stops : List Int) (rows rowsbad : List (List Int))
    (xb xsd xso : List Int)
    (hlen : stops.length = starts.length)
    (hval : ValidRanges (starts.zip stops) content.length)
    (hdisj : DisjointRanges (starts.zip stops))
    (hrows : rows.length = starts.length)
    (hrowlen : ∀ k, k < rows.length →
        (rows.getD k []).length = (stops.getD k 0 - starts.getD k 0).toNat)
    (hrowsbad : rowsbad.length ≠ starts.length)
    (hxb : xb.length = 1)
    (hxsd1 : xsd.length ≠ 1)
    (hxsdS : (xsd.length : Int) = sumCounts (starts.zip stops))
    (hxso1 : xso.length ≠ 1)
    (hxsoS : (xso.length : Int) ≠ sumCounts (starts.zip stops)) :
    setitemDispatch content starts stops (.jag rowsbad) = (content, some .lengthMismatch)
    ∧ (setitemDispatch content starts stops (.jag rows)).2 = none
    ∧ (setitemDispatch content starts stops (.jag rows)).1.length = content.length
    ∧ rowSlices (setitemDispatch content starts stops (.jag rows)).1 (starts.zip stops) = rows
    ∧ (setitemDispatch content starts stops (.seq xb)).2 = none
    ∧ rowSlices (setitemDispatch content starts stops (.seq xb)).1 (starts.zip stops)
        = (starts.zip stops).map (fun p => List.replicate (p.2 - p.1).toNat (xb.getD 0 0))
    ∧ (setitemDispatch content starts stops (.seq xsd)).2 = none
    ∧ rowSlices (setitemDispatch content starts stops (.seq xsd)).1 (starts.zip stops)
        = chunksBy xsd 0 (starts.zip stops)
    ∧ setitemDispatch content starts stops (.seq xso) = (content, some .lengthMismatch)
    ∧ (∀ what, setitem ⟨starts, stops, content, true⟩ (.slice none none) what
        = setitemDispatch content starts stops what) := by
  have hrs : (starts.zip stops).length = starts.length := by
    rw [List.length_zip]
    omega
  have hrsget : ∀ k, k < starts.length →
      ∀ (hk2 : k < (starts.zip stops).length),
      (starts.zip stops).get ⟨k, hk2⟩ = (starts.getD k 0, stops.getD k 0) := by
    intro k hk hk2
    rw [List.get_eq_getElem, List.getElem_zip, getD_of_lt _ hk,
      getD_of_lt _ (show k < stops.length by omega)]
  have hmemk : ∀ k, k < starts.length →
      (starts.getD k 0, stops.getD k 0) ∈ starts.zip stops := by
    intro k hk
    rw [← hrsget k hk (by rw [hrs]; exact hk)]
    exact List.get_mem _ _ _
  have hrsgetD : ∀ k, k < starts.length →
      (starts.zip stops).getD k (0, 0) = (starts.getD k 0, stops.getD k 0) := by
    intro k hk
    rw [List.getD_eq_getElem _ _ (by rw [hrs]; exact hk), List.getElem_zip,
      getD_of_lt _ hk, getD_of_lt _ (show k < stops.length by omega)]
  -- ===== (a) jagged right-hand side of the wrong length
  have hA : setitemDispatch content starts stops (.jag rowsbad)
      = (content, some .lengthMismatch) := by
    simp only [setitemDispatch, if_pos hrowsbad]
  -- ===== (b) jagged right-hand side, matching lengths
  have hitlenB : ((starts.zip stops).zip (rows.map WritePayload.vals)).length
      = starts.length := by
    rw [List.length_zip, List.length_map, hrs, hrows]
    omega
  have hgetB : ∀ k (hk : k < starts.length),
      ((starts.zip stops).zip (rows.map WritePayload.vals)).get ⟨k, by rw [hitlenB]; exact hk⟩
        = ((starts.getD k 0, stops.getD k 0), WritePayload.vals (rows.getD k [])) := by
    intro k hk
    rw [List.get_eq_getElem, List.getElem_zip, List.getElem_zip, List.getElem_map,
      getD_of_lt _ hk, getD_of_lt _ (show k < stops.length by omega),
      List.getD_eq_getElem rows [] (by omega)]
  have hvB : ∀ it ∈ (starts.zip stops).zip (rows.map WritePayload.vals),
      ValidItem content.length it := by
    intro it hit
    obtain ⟨⟨k, hk2⟩, hke⟩ := List.mem_iff_get.mp hit
    have hk : k < starts.length := by rw [hitlenB] at hk2; exact hk2
    rw [hgetB k hk] at hke
    have hb := hval _ (hmemk k hk)
    have hrl := hrowlen k (by omega)
    rw [← hke]
    exact ⟨hb.1, hb.2.1, hb.2.2, hrl⟩
  have hpwB : ((starts.zip stops).zip (rows.map WritePayload.vals)).Pairwise ItemDisjoint := by
    have hfst : ((starts.zip stops).zip (rows.map WritePayload.vals)).map Prod.fst
        = starts.zip stops :=
      List.map_fst_zip _ _ (by rw [List.length_map, hrs, hrows])
    have h2 : (((starts.zip stops).zip (rows.map WritePayload.vals)).map Prod.fst).Pairwise
        (fun p q => p.2 ≤ q.1 ∨ q.2 ≤ p.1) := by
      rw [hfst]
      exact hdisj
    exact pairwise_of_map_fst h2
  have hBr : setitemDispatch content starts stops (.jag rows)
      = writeLoop content ((starts.zip stops).zip (rows.map WritePayload.vals)) := by
    simp only [setitemDispatch,
      if_neg (show ¬ rows.length ≠ starts.length from fun h => h hrows)]
  have hBok := writeLoop_ok hvB
  have hBsl : rowSlices (setitemDispatch content starts stops (.jag rows)).1
      (starts.zip stops) = rows := by
    rw [hBr]
    apply List.ext_getElem
    · simp only [rowSlices, List.length_map]
      omega
    · intro k h1 h2
      have hk : k < starts.length := by
        simp only [rowSlices, List.length_map, hrs] at h1
        exact h1
      have hsl := writeLoop_slices hvB hpwB k (by rw [hitlenB]; exact hk)
      rw [hgetB k hk] at hsl
      simp only [payloadList] at hsl
      rw [getD_of_lt _ hk, getD_of_lt _ (show k < stops.length by omega),
        List.getD_eq_getElem rows [] (by omega)] at hsl
      simp only [rowSlices, List.getElem_map]
      rw [List.getElem_zip]
      exact hsl
  -- ===== (c) length-1 sequence broadcasts
  have hitlenC : ((starts.zip stops).map
      (fun se => (se, WritePayload.scalar (xb.getD 0 0)))).length = starts.length := by
    rw [List.length_map, hrs]
  have hgetC : ∀ k (hk : k < starts.length),
      ((starts.zip stops).map (fun se => (se, WritePayload.scalar (xb.getD 0 0)))).get
          ⟨k, by rw [hitlenC]; exact hk⟩
        = ((starts.getD k 0, stops.getD k 0), WritePayload.scalar (xb.getD 0 0)) := by
    intro k hk
    rw [List.get_eq_getElem, List.getElem_map, List.getElem_zip, getD_of_lt _ hk,
      getD_of_lt _ (show k < stops.length by omega)]
  have hvC : ∀ it ∈ (starts.zip stops).map
      (fun se => (se, WritePayload.scalar (xb.getD 0 0))),
      ValidItem content.length it := by
    intro it hit
    obtain ⟨p, hp, hpe⟩ := List.mem_map.mp hit
    have hb := hval p hp
    rw [← hpe]
    exact ⟨hb.1, hb.2.1, hb.2.2, trivial⟩
  have hpwC : ((starts.zip stops).map
      (fun se => (se, WritePayload.scalar (xb.getD 0 0)))).Pairwise ItemDisjoint := by
    rw [List.pairwise_map]
    exact hdisj
  have hCr : setitemDispatch content starts stops (.seq xb)
      = writeLoop content ((starts.zip stops).map
          (fun se => (se, WritePayload.scalar (xb.getD 0 0)))) := by
    simp only [setitemDispatch, if_pos hxb]
  have hCok := writeLoop_ok hvC
  have hCsl : rowSlices (setitemDispatch content starts stops (.seq xb)).1 (starts.zip stops)
      = (starts.zip stops).map (fun p => List.replicate (p.2 - p.1).toNat (xb.getD 0 0)) := by
    rw [hCr]
    apply List.ext_getElem
    · simp only [rowSlices, List.length_map]
    · intro k h1 h2
      have hk : k < starts.length := by
        simp only [rowSlices, List.length_map, hrs] at h1
        exact h1
      have hsl := writeLoop_slices hvC hpwC k (by rw [hitlenC]; exact hk)
      rw [hgetC k hk] at hsl
      simp only [payloadList] at hsl
      rw [getD_of_lt _ hk, getD_of_lt _ (show k < stops.length by omega)] at hsl
      simp only [rowSlices, List.getElem_map]
      rw [List.getElem_zip]
      exact hsl
  -- ===== (d) total-sum sequence distributes
  have hle : ∀ p ∈ starts.zip stops, p.1 ≤ p.2 := fun p hp => (hval p hp).2.1
  have htot : (0 : Int) + sumCounts (starts.zip stops) ≤ xsd.length := by omega
  have hch := chunksBy_getD_length xsd (starts.zip stops) 0 (le_refl 0) hle htot
  have hitlenD : (List.zipWith (fun r ch => (r, WritePayload.vals ch)) (starts.zip stops)
      (chunksBy xsd 0 (starts.zip stops))).length = starts.length := by
    rw [List.length_zipWith, chunksBy_length, hrs]
    omega
  have hgetD : ∀ k (hk : k < starts.length),
      (List.zipWith (fun r ch => (r, WritePayload.vals ch)) (starts.zip stops)
          (chunksBy xsd 0 (starts.zip stops))).get ⟨k, by rw [hitlenD]; exact hk⟩
        = ((starts.getD k 0, stops.getD k 0),
           WritePayload.vals ((chunksBy xsd 0 (starts.zip stops)).getD k [])) := by
    intro k hk
    rw [List.get_eq_getElem, List.getElem_zipWith, List.getElem_zip, getD_of_lt _ hk,
      getD_of_lt _ (show k < stops.length by omega),
      List.getD_eq_getElem (chunksBy xsd 0 (starts.zip stops)) []
        (by rw [chunksBy_length, hrs]; exact hk)]
  have hvD : ∀ it ∈ List.zipWith (fun r ch => (r, WritePayload.vals ch)) (starts.zip stops)
      (chunksBy xsd 0 (starts.zip stops)), ValidItem content.length it := by
    intro it hit
    obtain ⟨⟨k, hk2⟩, hke⟩ := List.mem_iff_get.mp hit
    have hk : k < starts.length := by rw [hitlenD] at hk2; exact hk2
    rw [hgetD k hk] at hke
    have hb := hval _ (hmemk k hk)
    have hckl := hch k (by rw [hrs]; exact hk)
    rw [hrsgetD k hk] at hckl
    rw [← hke]
    exact ⟨hb.1, hb.2.1, hb.2.2, hckl⟩
  have hpwD : (List.zipWith (fun r ch => (r, WritePayload.vals ch)) (starts.zip stops)
      (chunksBy xsd 0 (starts.zip stops))).Pairwise ItemDisjoint := by
    have hfst := map_fst_zipWith_pair (starts.zip stops) (chunksBy xsd 0 (starts.zip stops))
      (by rw [chunksBy_length])
    have h2 : ((List.zipWith (fun r ch => (r, WritePayload.vals ch)) (starts.zip stops)
        (chunksBy xsd 0 (starts.zip stops))).map Prod.fst).Pairwise
        (fun p q => p.2 ≤ q.1 ∨ q.2 ≤ p.1) := by
      rw [hfst]
      exact hdisj
    exact pairwise_of_map_fst h2
  have hDr : setitemDispatch content starts stops (.seq xsd)
      = writeLoop content (List.zipWith (fun r ch => (r, WritePayload.vals ch))
          (starts.zip stops) (chunksBy xsd 0 (starts.zip stops))) := by
    simp only [setitemDispatch, if_neg hxsd1,
      if_neg (show ¬ ((xsd.length : Int) ≠ sumCounts (starts.zip stops)) from
        fun h => h hxsdS)]
    exact distLoop_eq_writeLoop xsd (starts.zip stops) content 0
  have hDok := writeLoop_ok hvD
  have hDsl : rowSlices (setitemDispatch content starts stops (.seq xsd)).1
      (starts.zip stops) = chunksBy xsd 0 (starts.zip stops) := by
    rw [hDr]
    apply List.ext_getElem
    · simp only [rowSlices, List.length_map, chunksBy_length]
    · intro k h1 h2
      have hk : k < starts.length := by
        simp only [rowSlices, List.length_map, hrs] at h1
        exact h1
      have hsl := writeLoop_slices hvD hpwD k (by rw [hitlenD]; exact hk)
      rw [hgetD k hk] at hsl
      simp only [payloadList] at hsl
      rw [getD_of_lt _ hk, getD_of_lt _ (show k < stops.length by omega),
        List.getD_eq_getElem (chunksBy xsd 0 (starts.zip stops)) []
          (by rw [chunksBy_length, hrs]; exact hk)] at hsl
      simp only [rowSlices, List.getElem_map]
      rw [List.getElem_zip]
      exact hsl
  -- ===== (e) any other sequence length
  have hE : setitemDispatch content starts stops (.seq xso)
      = (content, some .lengthMismatch) := by
    simp only [setitemDispatch, if_neg hxso1, if_pos hxsoS]
  -- ===== assemble
  refine ⟨hA, ?_, ?_, hBsl, ?_, hCsl, ?_, hDsl, hE, ?_⟩
  · rw [hBr]
    exact hBok.1
  · rw [hBr]
    exact hBok.2
  · rw [hCr]
    exact hCok.1
  · rw [hDr]
    exact hDok.1
  · intro what
    exact setitem_slice_all ⟨starts, stops, content, true⟩ rfl
      (show starts.length ≤ stops.length by omega) what

/-- Witness for C4 on a concrete two-row selection over a six-element
content buffer. -/
theorem setitemDispatch_spec_witness :
    (([2, 6] : List Int).length = ([0, 3] : List Int).length
      ∧ ValidRanges (([0, 3] : List Int).zip [2, 6]) ([1, 2, 3, 4, 5, 6] : List Int).length
      ∧ DisjointRanges (([0, 3] : List Int).zip [2, 6]))
    ∧ setitemDispatch [1, 2, 3, 4, 5, 6] [0, 3] [2, 6] (.jag [[9]])
        = ([1, 2, 3, 4, 5, 6], some .lengthMismatch)
    ∧ rowSlices (setitemDispatch [1, 2, 3, 4, 5, 6] [0, 3] [2, 6]
          (.jag [[10, 20], [30, 40, 50]])).1 (([0, 3] : List Int).zip [2, 6])
        = [[10, 20], [30, 40, 50]]
    ∧ rowSlices (setitemDispatch [1, 2, 3, 4, 5, 6] [0, 3] [2, 6] (.seq [7])).1
          (([0, 3] : List Int).zip [2, 6])
        = (([0, 3] : List Int).zip [2, 6]).map
            (fun p => List.replicate (p.2 - p.1).toNat (([7] : List Int).getD 0 0))
    ∧ rowSlices (setitemDispatch [1, 2, 3, 4, 5, 6] [0, 3] [2, 6]
          (.seq [9, 8, 7, 6, 5])).1 (([0, 3] : List Int).zip [2, 6])
        = chunksBy [9, 8, 7, 6, 5] 0 (([0, 3] : List Int).zip [2, 6])
    ∧ setitemDispatch [1, 2, 3, 4, 5, 6] [0, 3] [2, 6] (.seq [1, 2])
        = ([1, 2, 3, 4, 5, 6], some .lengthMismatch)
    ∧ setitem ⟨[0, 3], [2, 6], [1, 2, 3, 4, 5, 6], true⟩ (.slice none none) (.scalar 5)
        = setitemDispatch [1, 2, 3, 4, 5, 6] [0, 3] [2, 6] (.scalar 5) := by
  have hval : ValidRanges (([0, 3] : List Int).zip [2, 6])
      ([1, 2, 3, 4, 5, 6] : List Int).length := by
    unfold ValidRanges
    decide
  have hdisj : DisjointRanges (([0, 3] : List Int).zip [2, 6]) := by
    unfold DisjointRanges
    decide
  have h := setitemDispatch_spec [1, 2, 3, 4, 5, 6] [0, 3] [2, 6]
    [[10, 20], [30, 40, 50]] [[9]] [7] [9, 8, 7, 6, 5] [1, 2]
    (by decide) hval hdisj (by decide) (by decide) (by decide) (by decide) (by decide)
    (by decide) (by decide) (by decide)
  obtain ⟨hA, hB1, hB2, hB3, hC1, hC2, hD1, hD2, hE, hF⟩ := h
  exact ⟨⟨by decide, hval, hdisj⟩, hA, hB3, hC2, hD2, hE, hF (.scalar 5)⟩

theorem getLast?_all {α} {p : α → Bool} : ∀ {l : List α}, l.all p = true →
    ∀ {x}, l.getLast? = some x → p x = true := by
  intro l
  induction l with
  | nil => intro _ x hx; simp at hx
  | cons a rest ih =>
      intro hall x hx
      cases rest with
      | nil =>
          simp at hx
          subst hx
          rw [List.all_cons, Bool.and_eq_true] at hall
          exact hall.1
      | cons b br =>
          rw [List.getLast?_cons_cons] at hx
          rw [List.all_cons, Bool.and_eq_true] at hall
          exact ih hall.2 hx

theorem head?_all {α} {p : α → Bool} {l : List α} (hall : l.all p = true) {x}
    (hx : l.head? = some x) : p x = true := by
  cases l with
  | nil => simp at hx
  | cons a r =>
      simp at hx
      subst hx
      rw [List.all_cons, Bool.and_eq_true] at hall
      exact hall.1

theorem recurseCond_two (x y : PyJson) :
    recurseCond [x, y]
      = (isIntJ y || isStrJ x || (isSeqJ y && (seqElems y).all isIntJ)) := rfl

theorem recurseCond_of_all_int {l : List PyJson} (hall : l.all isIntJ = true)
    (hne : l ≠ []) : recurseCond l = true := by
  have hsome : l.getLast?.isSome := List.getLast?_isSome.mpr hne
  rcases hl : l.getLast? with _ | x
  · rw [hl] at hsome
    simp at hsome
  · have hx := getLast?_all hall hl
    rcases hh : l.head? with _ | h
    · cases l with
      | nil => exact absurd rfl hne
      | cons a r => simp at hh
    · unfold recurseCond
      rw [hh, hl]
      simp [hx]

theorem recurseCond_pairs {l : List PyJson} (hall : l.all isPairJ = true) :
    recurseCond l = false := by
  unfold recurseCond
  rcases hh : l.head? with _ | h
  · rfl
  rcases hl : l.getLast? with _ | x
  · rfl
  have hpx := getLast?_all hall hl
  have hph := head?_all hall hh
  match x, hpx with
  | .tup (.str sx :: rx), _ =>
      match h, hph with
      | .tup (.str sh2 :: rh), _ =>
          simp [isIntJ, isStrJ, isSeqJ, seqElems, List.all_cons]

theorem intsOf_map_int (sh : List Nat) :
    intsOf (sh.map (fun m : Nat => PyJson.int (m : Int))) = some sh := by
  induction sh with
  | nil => rfl
  | cons n rest ih => simp [intsOf, ih]

theorem all_int_map_int (sh : List Nat) :
    ((sh.map (fun m : Nat => PyJson.int (m : Int))).all isIntJ) = true := by
  induction sh with
  | nil => rfl
  | cons n rest ih => simp [isIntJ, ih]

theorem recurse_int (n : Int) : recurse (.int n) = .int n := by
  simp [recurse]

theorem recurse_str (s : String) : recurse (.str s) = .str s := by
  simp [recurse]

theorem recurseL_map_int (sh : List Nat) :
    recurseL (sh.map (fun m : Nat => PyJson.int (m : Int)))
      = sh.map (fun m : Nat => PyJson.int (m : Int)) := by
  induction sh with
  | nil => rfl
  | cons n rest ih => simp [recurseL, recurse_int, ih]

theorem dtype2jsonF_all_pair : ∀ fs, (dtype2jsonF fs).all isPairJ = true := by
  intro fs
  induction fs with
  | nil => rfl
  | cons p rest ih =>
      obtain ⟨n, d⟩ := p
      simp [dtype2jsonF, isPairJ, ih]

theorem roundtripAux : ∀ (n : Nat) (d : PyDtype), sizeOf d ≤ n → wfDtype d = true →
    npDtypeOf (recurse (dtype2json d)) = some d := by
  intro n
  induction n with
  | zero =>
      intro d hd _
      exfalso
      cases d <;> simp at hd
  | succ n ih =>
      intro d hd hwf
      cases d with
      | simple s =>
          simp [dtype2json, recurse_str, npDtypeOf]
      | sub b sh =>
          simp only [wfDtype, Bool.and_eq_true] at hwf
          obtain ⟨⟨hnsub, hne⟩, hwfb⟩ := hwf
          have hszb : sizeOf b ≤ n := by
            simp at hd
            omega
          have hIH := ih b hszb hwfb
          have hshne : sh ≠ [] := by
            intro hc
            rw [hc] at hne
            simp at hne
          have hcond : recurseCond [dtype2json b, .tup (sh.map (fun m : Nat => PyJson.int (m : Int)))]
              = true := by
            rw [recurseCond_two]
            simp [isSeqJ, seqElems, all_int_map_int]
          simp only [dtype2json, recurse, hcond, if_true, recurseL]
          have hcond2 : recurseCond (sh.map (fun m : Nat => PyJson.int (m : Int))) = true :=
            recurseCond_of_all_int (all_int_map_int sh) (by simp [hshne])
          simp only [recurse, hcond2, if_true, recurseL_map_int]
          simp only [npDtypeOf, hIH, intsOf_map_int]
          have hem : sh.isEmpty = false := by
            cases sh with
            | nil => exact absurd rfl hshne
            | cons m r => rfl
          rw [hem]
          cases b with
          | sub b2 sh2 => simp [isSubD] at hnsub
          | simple s => simp
          | record fs => simp
      | record fs =>
          simp only [wfDtype] at hwf
          have hsz : sizeOf fs ≤ n := by
            simp at hd
            omega
          have hfields : ∀ (gs : List (String × PyDtype)), sizeOf gs ≤ n →
              wfFields gs = true →
              fieldsOf (recurseL (dtype2jsonF gs)) = some gs := by
            intro gs
            induction gs with
            | nil => intro _ _; rfl
            | cons p rest ihg =>
                intro hsz2 hwf2
                obtain ⟨na, da⟩ := p
                simp only [wfFields, Bool.and_eq_true] at hwf2
                have hszd : sizeOf da ≤ n := by
                  simp at hsz2
                  omega
                have hd2 := ih da hszd hwf2.1
                have hcondp : recurseCond [.str na, dtype2json da] = true := by
                  rw [recurseCond_two]
                  simp [isStrJ]
                simp only [dtype2jsonF, recurseL, recurse, hcondp, if_true, recurse_str]
                simp only [fieldsOf, hd2, ihg (by simp at hsz2; omega) hwf2.2]
          have hcondr : recurseCond (dtype2jsonF fs) = false :=
            recurseCond_pairs (dtype2jsonF_all_pair fs)
          simp only [dtype2json, recurse, hcondr, if_false]
          simp only [npDtypeOf, hfields fs hsz hwf]

/-- C10: for every dtype in the shapes the persistence schema uses (scalar
dtypes with canonical names, subarray dtypes, packed named-record dtypes),
`json2dtype(dtype2json(d)) == d`. -/
theorem json2dtype_dtype2json (d : PyDtype) (hwf : wfDtype d = true) :
    json2dtype (dtype2json d) = some d :=
  roundtripAux (sizeOf d) d (le_refl _) hwf

/-- Witness: the round-trip at a record dtype with a subarray field. -/
theorem json2dtype_dtype2json_witness :
    wfDtype (PyDtype.record [("a", .sub (.simple "int32") [3]), ("b", .simple "float64")])
      = true
    ∧ json2dtype (dtype2json
        (PyDtype.record [("a", .sub (.simple "int32") [3]), ("b", .simple "float64")]))
      = some (PyDtype.record [("a", .sub (.simple "int32") [3]), ("b", .simple "float64")]) :=
  ⟨by simp [wfDtype, wfFields, isSubD],
   json2dtype_dtype2json _ (by simp [wfDtype, wfFields, isSubD])⟩
